import Mathlib

/-!
Verification development for the BUNDLE_BOT repository.

The definitions below are shallow embeddings of the Python source:
pure functions become Lean functions, Python int becomes Nat or Int,
Python bytes become List Nat (byte values), fallible code returns
Except String, and program-derived addresses are modelled as a free
term algebra mirroring the derivation helpers in app/core/utils.py.
Definitions named spec_... are modelled from the wording of spec.md
for comparison with the code-derived definitions.
-/

namespace BundleBot

/-! ## Transfer-fee-aware hop planner
Embeds backend/app/core/wallet_manager.py, WalletManager._gross_net_for_target_net.
In the source, max_fee == 0 encodes an unbounded fee cap (the mint maximumFee is
passed by the only caller, hide_supply); fee and net are computed per hop as
  fee = (g * fee_bps) // 10_000, capped at max_fee unless max_fee == 0,
  net = g - fee, clamped at 0 (Nat subtraction gives the clamp). -/

def hopFee (fee_bps max_fee g : ℕ) : ℕ :=
  let f := g * fee_bps / 10000
  if max_fee = 0 ∨ f ≤ max_fee then f else max_fee

def hopNet (fee_bps max_fee g : ℕ) : ℕ :=
  g - hopFee fee_bps max_fee g

/-- The while loop of _gross_net_for_target_net. State: remaining fuel
(the loop runs at most 100 iterations because hop is incremented every
iteration and the guard requires hop < 100; fuel 100 with hop 0 therefore
reproduces the loop exactly), current gross g, current hop counter.
Returns the accumulated gross list and the final hop counter. -/
def gnLoopF (fee_bps max_fee target : ℕ) : ℕ → ℕ → ℕ → List ℕ × ℕ
  | 0, _g, hop => ([], hop)
  | fuel + 1, g, hop =>
    if 0 < g ∧ hop < 100 then
      let net := hopNet fee_bps max_fee g
      if net ≤ target ∨ net = 0 then ([], hop + 1)
      else
        let r := gnLoopF fee_bps max_fee target fuel net (hop + 1)
        (g :: r.1, r.2)
    else ([], hop)

/-- The post-loop chain-continuity self-check of _gross_net_for_target_net.
Note the source recomputes the fee WITHOUT the max_fee cap here. -/
def continuityCheck (fee_bps : ℕ) : List ℕ → Bool
  | a :: b :: rest => decide (b = a - a * fee_bps / 10000) && continuityCheck fee_bps (b :: rest)
  | _ => true

/-- WalletManager._gross_net_for_target_net. Errors model Python raises
(ValueError, RuntimeError, AssertionError). The max_fee = None default is not
modelled: the only caller passes the mint maximumFee as an int, and the source
treats max_fee == 0 as an unbounded cap. -/
def gross_net_for_target_net (target_net fee_bps max_gross : ℤ) (max_fee : ℕ) :
    Except String (List ℕ) :=
  if target_net ≤ 0 then .ok []
  else if max_gross ≤ 0 then .ok []
  else if fee_bps < 0 ∨ fee_bps > 100000 then .error "fee_bps out of range"
  else if fee_bps = 0 then
    let g := min max_gross target_net
    .ok (if 0 < g then [g.toNat] else [])
  else
    let r := gnLoopF fee_bps.toNat max_fee target_net.toNat 100 max_gross.toNat 0
    if r.2 ≥ 100 then .error "too many hops (guard)"
    else if continuityCheck fee_bps.toNat r.1 then .ok r.1
    else .error "chain continuity violated"

/-! ## Cycle configuration and the timeout-versus-profit race
Embeds app/core/bablo_bot.py. In Bablo._cycle_with_dev the timer task is
created unconditionally as asyncio.create_task(asyncio.sleep(cfg.cycle_timeout_sec));
there is no branch on cycle_timeout_sec == 0, and asyncio.sleep d completes
after d seconds (sleep 0 completes immediately). The monitoring phase ends at
the first completed of the timer task and the pnl event, after which both
tasks are cancelled and the withdraw step runs. We model the instant at which
each of the two racers can complete (none meaning it never completes) and the
instant at which the race is decided. -/

structure BabloConfig where
  token_amount_ui : List ℕ
  wsol_amount_ui : List ℚ
  profit_threshold_sol : ℚ
  cycle_timeout_sec : ℕ
  mode : String
  auto_sleep_sec : ℕ

/-- From the source: the timer task always exists and its sleep completes at
cycle_timeout_sec seconds, for every value including 0. -/
def timerFiresAt (cfg : BabloConfig) : Option ℕ :=
  some cfg.cycle_timeout_sec

/-- Modelled from the spec: cycle_timeout 0 means the timer never fires and
only the profit path can end the monitoring phase. -/
def spec_timerFiresAt (cfg : BabloConfig) : Option ℕ :=
  if cfg.cycle_timeout_sec = 0 then none else some cfg.cycle_timeout_sec

/-- asyncio.wait with FIRST_COMPLETED: the race is decided at the earliest
completion instant of the two tasks, or never when neither completes. -/
def firstCompleted : Option ℕ → Option ℕ → Option ℕ
  | some a, some b => some (min a b)
  | some a, none => some a
  | none, some b => some b
  | none, none => none

/-- The instant at which the monitoring phase of _cycle_with_dev ends
(withdraw runs right after), given the instant at which the profit event
would be set (none: the profit threshold is never reached). -/
def monitoringEndsAt (cfg : BabloConfig) (profitAt : Option ℕ) : Option ℕ :=
  firstCompleted (timerFiresAt cfg) profitAt

/-- Modelled from the spec: the same race but with the timer disabled when
cycle_timeout_sec = 0. -/
def spec_monitoringEndsAt (cfg : BabloConfig) (profitAt : Option ℕ) : Option ℕ :=
  firstCompleted (spec_timerFiresAt cfg) profitAt

/-- The configuration used by the C2 counterexample: cycle_timeout_sec = 0. -/
def cfgTimeoutZero : BabloConfig :=
  { token_amount_ui := [1000]
    wsol_amount_ui := [3]
    profit_threshold_sol := 5 / 100
    cycle_timeout_sec := 0
    mode := "manual"
    auto_sleep_sec := 300 }

/-! ## WebSocket lamports monitor
Embeds app/core/ws_hub.py. WsHub._should_emit is the pure dedup test.
WsHub._runner initializes prev_lamports to None and passes the closure
(lambda v: self._should_emit(v, prev_lamports)) to _read_loop; prev_lamports
is never reassigned anywhere in _runner, so the closure always tests against
None. _read_loop keeps its own local prev, assigns it on emit, but never
feeds it into the emit decision. A message is either a notification carrying
a lamports field (some n) or anything else (none, skipped). -/

def should_emit (current : ℕ) : Option ℕ → Bool
  | none => true
  | some p => current != p

/-- The value of the runner variable prev_lamports as seen by the closure:
initialized to None at the top of _runner and never reassigned. -/
def runner_prev_lamports : Option ℕ := none

/-- The message loop of _read_loop: prev is the local variable of _read_loop
(updated on emit, not consulted), the emit test is the closure built in
_runner. Returns the list of lamport values passed to on_change, in order. -/
def read_loop_go : List (Option ℕ) → Option ℕ → List ℕ
  | [], _prev => []
  | none :: rest, prev => read_loop_go rest prev
  | some lam :: rest, prev =>
    if should_emit lam runner_prev_lamports then lam :: read_loop_go rest (some lam)
    else read_loop_go rest prev

def read_loop_emits (msgs : List (Option ℕ)) : List ℕ :=
  read_loop_go msgs none

/-- Modelled from the spec: emit the first observed value, then only values
that differ from the previously emitted one. -/
def spec_dedup_go : List (Option ℕ) → Option ℕ → List ℕ
  | [], _prev => []
  | none :: rest, prev => spec_dedup_go rest prev
  | some lam :: rest, prev =>
    if should_emit lam prev then lam :: spec_dedup_go rest (some lam)
    else spec_dedup_go rest prev

def spec_dedup_emits (msgs : List (Option ℕ)) : List ℕ :=
  spec_dedup_go msgs none

/-! ## Transaction size handling
Embeds app/core/client.py. In build_signed_raw_transaction the serialized
transaction bytes raw are checked: if len(raw) > 1232 the function logs the
length and returns bytes() — an ordinary empty return value; no exception
type named TransactionTooLarge exists anywhere in the repository. The
Except wrapper models the possibility of a Python raise; the size path never
uses it. Only the size gate is modelled: message building and signing are
done by the external solders library, so the serialized bytes are the input. -/

def build_signed_raw_transaction (raw : List ℕ) : Except String (List ℕ) :=
  if raw.length > 1232 then .ok [] else .ok raw

/-- Modelled from the spec: serialized size over 1232 bytes must fail with
TransactionTooLarge before any network call. -/
def spec_size_gate (raw : List ℕ) : Except String (List ℕ) :=
  if raw.length > 1232 then .error "TransactionTooLarge" else .ok raw

/-- From build_and_send_transaction (the path used by the orchestrator and
the wallet managers): after assembling the message the function only logs
len(bytes(transaction)) and enters the send loop; the source contains no
branch on the serialized size, so no size causes a pre-send rejection. -/
def build_and_send_size_rejects (_size : ℕ) : Bool := false

def exceptIsOk {ε α : Type} : Except ε α → Bool
  | .ok _ => true
  | .error _ => false

/-! ## PnL monitor trigger
Embeds Bablo._monitor_pnl_wrapper.on_value from app/core/bablo_bot.py and
lamports_to_sol from app/core/utils.py. Python float arithmetic is modelled
as exact rational arithmetic; on the lamport ranges of the claims the float
computation is exact enough that the comparison outcome agrees. init_sol is
self.wsol_amount_ui at monitor start. Returns which events are set:
(pnl event, ws stop event). -/

def LAMPORTS_PER_SOL : ℕ := 1000000000

def LAUNCH_COST_LAMPORTS : ℕ := 201570260

def lamports_to_sol (amount_lamports : ℕ) : ℚ :=
  (amount_lamports : ℚ) / (LAMPORTS_PER_SOL : ℚ)

def LAUNCH_COST_SOL : ℚ := lamports_to_sol LAUNCH_COST_LAMPORTS

def on_value (profit_threshold_sol init_sol : ℚ) (lamports : ℕ) : Bool × Bool :=
  let pnl := lamports_to_sol lamports - init_sol - LAUNCH_COST_SOL
  if profit_threshold_sol ≤ pnl then (true, true) else (false, false)

/-! ## Pool preparation: token ordering, amounts, vaults, expected LP
Embeds Bablo._prepare_liquidity_pool from app/core/bablo_bot.py together with
the helpers of app/core/utils.py. Program-derived addresses
(find_program_address with fixed seed strings) are modelled as free
constructors of a term algebra: each derivation helper of utils.py becomes
one constructor application, and well-known program ids keep their base58
names. Python bytes comparison is byte-lexicographic. -/

inductive Addr where
  | key : List ℕ → Addr
  | named : String → Addr
  | ata : Addr → Addr → Addr → Addr
  | ammConfig : ℕ → Addr → Addr
  | auth : Addr → Addr
  | pool : Addr → Addr → Addr → Addr → Addr
  | lpMint : Addr → Addr → Addr
  | vault : Addr → Addr → Addr → Addr
  | oracle : Addr → Addr → Addr
deriving DecidableEq

def RAYDIUM_CP_PROGRAM_ID : Addr := .named "CPMMoo8L3F4NbTegBCKVNunggL7H1ZpdTHKxQB5qKP1C"
def TOKEN_PROGRAM_ID : Addr := .named "TokenkegQfeZyiNwAJbNbGKPFXCWuBvf9Ss623VQ5DA"
def TOKEN_PROGRAM_2022_ID : Addr := .named "TokenzQdBNbLqP5VEhdkAS6EPFLC1PHnBqCXEpPxuEb"

def get_associated_token_address (owner mint token_program : Addr) : Addr :=
  .ata owner mint token_program

def get_amm_config_address (index : ℕ) (program_id : Addr) : Addr :=
  .ammConfig index program_id

def get_authority_address (program_id : Addr) : Addr :=
  .auth program_id

def get_pool_address (amm_config token_mint0 token_mint1 program_id : Addr) : Addr :=
  .pool amm_config token_mint0 token_mint1 program_id

def get_pool_lp_mint_address (pool program_id : Addr) : Addr :=
  .lpMint pool program_id

def get_pool_vault_address (pool vault_token_mint program_id : Addr) : Addr :=
  .vault pool vault_token_mint program_id

def get_oracle_account_address (pool program_id : Addr) : Addr :=
  .oracle pool program_id

/-- Python bytes lexicographic strict comparison, as in
bytes(created_token_mint) < bytes(SOL_WRAPPED_MINT). -/
def bytesLt : List ℕ → List ℕ → Bool
  | _, [] => false
  | [], _ :: _ => true
  | a :: as, b :: bs => if a < b then true else if b < a then false else bytesLt as bs

def mintBytes : Addr → List ℕ
  | .key b => b
  | _ => []

/-- Constants from app/core/constants.py and bablo_bot.py. -/
def TOKEN_DECIMALS : ℕ := 9

def TOKEN_WITH_DECIMALS : ℕ := 10 ^ TOKEN_DECIMALS

def MILLION : ℕ := 10 ^ 6

def TRANSFER_FEE_BPS : ℕ := 1000

def TRANSFER_FEE_PERCENT : ℕ := TRANSFER_FEE_BPS / 100

/-- utils.get_token_amount_after_fee: int(amount * (100 - fee_percent) / 100).
The Python float division is exact on the operational ranges and truncation of
a nonnegative value is the floor, which Nat division computes. -/
def get_token_amount_after_fee (amount fee_percent : ℕ) : ℕ :=
  amount * (100 - fee_percent) / 100

/-- utils.calculate_lp_tokens: math.isqrt(vault_0 * vault_1) - lock_lp.
The call site passes the default lock_lp = 100. The result is an Int because
the Python subtraction may go below zero. Nat.sqrt is the integer square
root (floor), as math.isqrt. -/
def calculate_lp_tokens (vault_0 vault_1 lock_lp : ℕ) : ℤ :=
  (Nat.sqrt (vault_0 * vault_1) : ℤ) - (lock_lp : ℤ)

structure LiquidityPoolData where
  token_mint0 : Addr
  token_mint1 : Addr
  token_0_program : Addr
  token_1_program : Addr
  token_mint0_amount : ℕ
  token_mint1_amount : ℕ
  pool_state : Addr
  authority : Addr
  lp_mint : Addr
  creator_lp_token : Addr
  token0_vault : Addr
  token1_vault : Addr
  observation : Addr
  token_0_ata : Addr
  token_1_ata : Addr
  liq_vault : Addr
  lp_amount : ℤ
deriving DecidableEq

/-- Bablo._prepare_liquidity_pool. created and wsol are the 32 raw bytes of
the freshly generated mint and of SOL_WRAPPED_MINT; creator is the dev
pubkey; token_amount and lamports_amount are the cycle sizes in base units
and lamports. -/
def prepare_liquidity_pool (created wsol : List ℕ) (creator : Addr)
    (token_amount lamports_amount : ℕ) : LiquidityPoolData :=
  let token_ata := get_associated_token_address creator (.key created) TOKEN_PROGRAM_2022_ID
  let wsol_ata := get_associated_token_address creator (.key wsol) TOKEN_PROGRAM_ID
  let is_token_first := bytesLt created wsol
  let token_mint0 := if is_token_first then Addr.key created else Addr.key wsol
  let token_mint1 := if is_token_first then Addr.key wsol else Addr.key created
  let token_0_program := if is_token_first then TOKEN_PROGRAM_2022_ID else TOKEN_PROGRAM_ID
  let token_1_program := if is_token_first then TOKEN_PROGRAM_ID else TOKEN_PROGRAM_2022_ID
  let token_mint0_amount := if is_token_first then token_amount else lamports_amount
  let token_mint1_amount := if is_token_first then lamports_amount else token_amount
  let token_0_ata := if is_token_first then token_ata else wsol_ata
  let token_1_ata := if is_token_first then wsol_ata else token_ata
  let program_id := RAYDIUM_CP_PROGRAM_ID
  let amm_config := get_amm_config_address 0 program_id
  let authority := get_authority_address program_id
  let pool_state := get_pool_address amm_config token_mint0 token_mint1 program_id
  let lp_mint := get_pool_lp_mint_address pool_state program_id
  let creator_lp_token := get_associated_token_address creator lp_mint TOKEN_PROGRAM_ID
  let token0_vault := get_pool_vault_address pool_state token_mint0 program_id
  let token1_vault := get_pool_vault_address pool_state token_mint1 program_id
  let observation := get_oracle_account_address pool_state program_id
  let liq_vault := if is_token_first then token1_vault else token0_vault
  { token_mint0 := token_mint0
    token_mint1 := token_mint1
    token_0_program := token_0_program
    token_1_program := token_1_program
    token_mint0_amount := token_mint0_amount
    token_mint1_amount := token_mint1_amount
    pool_state := pool_state
    authority := authority
    lp_mint := lp_mint
    creator_lp_token := creator_lp_token
    token0_vault := token0_vault
    token1_vault := token1_vault
    observation := observation
    token_0_ata := token_0_ata
    token_1_ata := token_1_ata
    liq_vault := liq_vault
    lp_amount := calculate_lp_tokens
      (get_token_amount_after_fee token_amount TRANSFER_FEE_PERCENT) lamports_amount 100 }

/-- Modelled from the spec: lp_amount_expected =
isqrt(token_amount_after_fee * sol_amount_lamports) - 100 with
token_amount_after_fee = floor(token_amount * (100 - 10) / 100). -/
def spec_lp_amount_expected (token_amount sol_amount_lamports : ℕ) : ℤ :=
  (Nat.sqrt (token_amount * (100 - 10) / 100 * sol_amount_lamports) : ℤ) - 100

/-! ## Chain-hop SOL distribution
Embeds WalletManager.distribute_via_chain from backend/app/core/wallet_manager.py.
Per destination: 3 temp wallets are created and persisted, the path is
fund (index 0) → tmp1 (1) → tmp2 (2) → tmp3 (3) → destination (4), and the
amount of hop i over range(4) is base_amount + (4 - i - 1) * fee_lamports. -/

def chain_fee_lamports_default : ℕ := 5000

def chain_tmp_wallet_count : ℕ := 3

def chain_hops : List (ℕ × ℕ) := [(0, 1), (1, 2), (2, 3), (3, 4)]

def chain_amounts (base_amount fee_lamports : ℕ) : List ℕ :=
  (List.range chain_hops.length).map
    (fun i => base_amount + (chain_hops.length - i - 1) * fee_lamports)

def chain_transfers (base_amount fee_lamports : ℕ) : List ((ℕ × ℕ) × ℕ) :=
  chain_hops.zip (chain_amounts base_amount fee_lamports)

/-! ## Wallet persistence and the base58 round trip
Embeds WalletManager._persist_wallet from app/core/wallet_manager.py: the
file is wallets_dir/<str(pubkey)>.txt and its content is
base58.b58encode(kp.to_bytes()). A solders Keypair is 32 secret-seed bytes
followed by the 32 public-key bytes; to_bytes returns those 64 bytes and
from_base58_string (used to load FUND_PRIVATE_KEY) decodes base58 and splits
them back. str(pubkey) is the base58 form of the 32 public-key bytes, and
".txt" is the ASCII bytes 46, 116, 120, 116. Signing is any deterministic
function of the 64 keypair bytes and the message. base58 is implemented as
in the base58 package: leading zero bytes map to leading "1" characters and
the rest is the big-endian base-58 numeral of the remaining bytes. -/

def lead_zero_count : List ℕ → ℕ
  | [] => 0
  | x :: r => if x = 0 then lead_zero_count r + 1 else 0

def ofDigitsLE (b : ℕ) : List ℕ → ℕ
  | [] => 0
  | d :: r => d + b * ofDigitsLE b r

def toDigitsLE (b : ℕ) : ℕ → ℕ → List ℕ
  | 0, _ => []
  | fuel + 1, n => if n = 0 then [] else n % b :: toDigitsLE b fuel (n / b)

def natDigitsLE (b n : ℕ) : List ℕ := toDigitsLE b n n

def b58_digits_of_bytes (bs : List ℕ) : List ℕ :=
  List.replicate (lead_zero_count bs) 0 ++ (natDigitsLE 58 (ofDigitsLE 256 bs.reverse)).reverse

def bytes_of_b58_digits (ds : List ℕ) : List ℕ :=
  List.replicate (lead_zero_count ds) 0 ++ (natDigitsLE 256 (ofDigitsLE 58 ds.reverse)).reverse

/-- ASCII codes of the bitcoin base58 alphabet
123456789ABCDEFGHJKLMNPQRSTUVWXYZabcdefghijkmnopqrstuvwxyz. -/
def B58_ALPHABET : List ℕ :=
  [49, 50, 51, 52, 53, 54, 55, 56, 57,
   65, 66, 67, 68, 69, 70, 71, 72, 74, 75, 76, 77, 78, 80, 81, 82, 83, 84, 85, 86,
   87, 88, 89, 90,
   97, 98, 99, 100, 101, 102, 103, 104, 105, 106, 107, 109, 110, 111, 112, 113, 114,
   115, 116, 117, 118, 119, 120, 121, 122]

def b58_char (d : ℕ) : ℕ := B58_ALPHABET.getD d 0

def b58_digit_of_char (c : ℕ) : ℕ := B58_ALPHABET.indexOf c

def b58encode (bs : List ℕ) : List ℕ := (b58_digits_of_bytes bs).map b58_char

def b58decode (cs : List ℕ) : List ℕ := bytes_of_b58_digits (cs.map b58_digit_of_char)

structure SoldersKeypair where
  secret : List ℕ
  public : List ℕ
deriving DecidableEq

def keypair_to_bytes (kp : SoldersKeypair) : List ℕ := kp.secret ++ kp.public

def keypair_from_bytes (bs : List ℕ) : Option SoldersKeypair :=
  if bs.length = 64 then some ⟨bs.take 32, bs.drop 32⟩ else none

def keypair_from_base58_string (cs : List ℕ) : Option SoldersKeypair :=
  keypair_from_bytes (b58decode cs)

def persist_wallet_filename (kp : SoldersKeypair) : List ℕ :=
  b58encode kp.public ++ [46, 116, 120, 116]

def persist_wallet_content (kp : SoldersKeypair) : List ℕ :=
  b58encode (keypair_to_bytes kp)

/-! ## Transaction confirmation polling
Embeds SolanaClient.confirm_transaction from app/core/client.py. Each loop
iteration issues one get_signature_statuses query; a poll result is
some (confirmations?) when a status object is present (Python: status is
truthy) and none when absent; query exceptions are caught and treated as an
unconfirmed attempt. Confirmation requires a present status whose
confirmations field is not None. On exhaustion the source executes a bare
raise statement with no active exception, which raises RuntimeError. The
model returns the outcome together with the number of queries issued. -/

def status_confirmed : Option (Option ℕ) → Bool
  | some (some _) => true
  | some none => false
  | none => false

def confirm_loop (poll : ℕ → Option (Option ℕ)) : ℕ → ℕ → ℕ → Except String Bool × ℕ
  | 0, _attempt, queries => (.error "RuntimeError: No active exception to re-raise", queries)
  | fuel + 1, attempt, queries =>
    if status_confirmed (poll attempt) then (.ok true, queries + 1)
    else confirm_loop poll fuel (attempt + 1) (queries + 1)

def confirm_transaction (max_retries : ℕ) (poll : ℕ → Option (Option ℕ)) :
    Except String Bool × ℕ :=
  if max_retries = 0 then (.ok true, 0)
  else confirm_loop poll max_retries 0 0

end BundleBot

namespace BundleBot

/-! ## Helper lemmas -/

theorem confirm_loop_exhaust (poll : ℕ → Option (Option ℕ))
    (hall : ∀ a, status_confirmed (poll a) = false) :
    ∀ fuel attempt queries, confirm_loop poll fuel attempt queries =
      (.error "RuntimeError: No active exception to re-raise", queries + fuel) := by
  intro fuel
  induction fuel with
  | zero => intro attempt queries; rfl
  | succ n ih =>
    intro attempt queries
    rw [confirm_loop, hall attempt]
    simp only [Bool.false_eq_true, if_false, ih (attempt + 1) (queries + 1)]
    exact congrArg _ (by omega)

theorem bytesLt_total : ∀ a b : List ℕ, a.length = b.length → a ≠ b →
    bytesLt a b = false → bytesLt b a = true := by
  intro a
  induction a with
  | nil =>
    intro b hl hne _
    cases b with
    | nil => exact absurd rfl hne
    | cons y ys => simp at hl
  | cons x xs ih =>
    intro b hl hne hlt
    cases b with
    | nil => simp at hl
    | cons y ys =>
      rw [bytesLt] at hlt ⊢
      by_cases hyx : y < x
      · rw [if_pos hyx]
      · rw [if_neg hyx] at hlt ⊢
        by_cases hxy : x < y
        · rw [if_pos hxy] at hlt; exact absurd hlt (by simp)
        · rw [if_neg hxy] at hlt ⊢
          have hx : x = y := by omega
          subst hx
          have hlen2 : xs.length = ys.length := by simpa using hl
          have hne2 : xs ≠ ys := by
            intro hcon; exact hne (by rw [hcon])
          exact ih ys hlen2 hne2 hlt

/-! ## Claim C2: cycle_timeout = 0 -/

/-- C2 counterexample: in the code the timer task is created as
asyncio.sleep(0), which completes immediately: with cycle_timeout_sec = 0 and
a profit event that never fires, the monitoring race of _cycle_with_dev ends
at time 0 via the timer, while the claim requires that it never ends. -/
theorem C2_counterexample :
    monitoringEndsAt cfgTimeoutZero none = some 0 ∧
    spec_monitoringEndsAt cfgTimeoutZero none = none ∧
    (some 0 : Option ℕ) ≠ none := by
  refine ⟨rfl, rfl, by decide⟩

/-- C2 (amended): when the configured cycle_timeout is 0 the timer task is
still created and its sleep completes immediately, so the monitoring phase
ends at time 0 via the timer for every profit schedule (withdraw is always
reached at once; a run that never reaches the profit threshold does not
block). -/
theorem C2_timeout_zero (cfg : BabloConfig) (profitAt : Option ℕ)
    (h : cfg.cycle_timeout_sec = 0) :
    monitoringEndsAt cfg profitAt = some 0 := by
  cases profitAt <;>
    simp [monitoringEndsAt, timerFiresAt, firstCompleted, h]

theorem C2_timeout_zero_witness :
    cfgTimeoutZero.cycle_timeout_sec = 0 ∧
    monitoringEndsAt cfgTimeoutZero (some 7) = some 0 :=
  ⟨rfl, C2_timeout_zero cfgTimeoutZero (some 7) rfl⟩

/-! ## Claim C3: duplicate suppression in the WS monitor -/

/-- C3: on a subscription delivering the lamport values 5 and then 5, the
code invokes on_change twice with the same value, because _runner never
updates the prev_lamports variable captured by the should_emit closure; the
dedup behaviour described by the spec and by the ws_hub docstring would
deliver the duplicate only once. -/
theorem C3_duplicate_delivered :
    read_loop_emits [some 5, some 5] = [5, 5] ∧
    spec_dedup_emits [some 5, some 5] = [5] ∧
    ([5, 5] : List ℕ) ≠ [5] := by
  refine ⟨rfl, rfl, by decide⟩

/-! ## Claim C4: transaction size gate -/

/-- C4 counterexample: a 1233-byte serialized transaction makes
build_signed_raw_transaction return empty bytes as an ordinary value: no
TransactionTooLarge failure occurs (no such error exists in the repository),
and build_and_send_transaction, the path the orchestrator uses, rejects no
size at all before sending. -/
theorem C4_counterexample :
    build_signed_raw_transaction (List.replicate 1233 0) = .ok [] ∧
    exceptIsOk (build_signed_raw_transaction (List.replicate 1233 0)) = true ∧
    spec_size_gate (List.replicate 1233 0) = .error "TransactionTooLarge" ∧
    build_and_send_size_rejects 1233 = false := by
  have hgt : 1232 < (List.replicate 1233 (0 : ℕ)).length := by
    rw [List.length_replicate]
    norm_num
  refine ⟨?_, ?_, ?_, rfl⟩
  · rw [build_signed_raw_transaction, if_pos hgt]
  · rw [exceptIsOk.eq_def, build_signed_raw_transaction, if_pos hgt]
  · rw [spec_size_gate, if_pos hgt]

/-- C4 (amended): build_signed_raw_transaction returns empty bytes (a normal
return, not an error) whenever the serialized size exceeds 1232 bytes, and
returns the serialized transaction unchanged, to be sent, at any size up to
and including exactly 1232 bytes; build_and_send_transaction performs no
size check. -/
theorem C4_size_gate (raw : List ℕ) :
    (1232 < raw.length → build_signed_raw_transaction raw = .ok []) ∧
    (raw.length ≤ 1232 → build_signed_raw_transaction raw = .ok raw) := by
  constructor
  · intro h
    rw [build_signed_raw_transaction, if_pos h]
  · intro h
    rw [build_signed_raw_transaction, if_neg (by omega)]

theorem C4_size_gate_witness :
    1232 < (List.replicate 1233 (0 : ℕ)).length ∧
    build_signed_raw_transaction (List.replicate 1233 0) = .ok [] ∧
    (List.replicate 1232 (0 : ℕ)).length ≤ 1232 ∧
    build_signed_raw_transaction (List.replicate 1232 0) = .ok (List.replicate 1232 0) :=
  ⟨by rw [List.length_replicate]; norm_num,
   (C4_size_gate (List.replicate 1233 0)).1 (by rw [List.length_replicate]; norm_num),
   by rw [List.length_replicate],
   (C4_size_gate (List.replicate 1232 0)).2 (by rw [List.length_replicate])⟩

/-! ## Claim C5: profit trigger with threshold 0 -/

/-- C5 counterexample: with profit_threshold_sol = 0 and initial SOL 0, the
first non-zero lamport update (1 lamport) does NOT set the profit event,
because the handler subtracts LAUNCH_COST_SOL (about 0.2016 SOL) before
comparing with the threshold; the claim requires (true, true). -/
theorem C5_counterexample :
    on_value 0 0 1 = (false, false) ∧ (false, false) ≠ (true, true) := by
  refine ⟨?_, by decide⟩
  norm_num [on_value, lamports_to_sol, LAUNCH_COST_SOL, LAMPORTS_PER_SOL,
    LAUNCH_COST_LAMPORTS]

/-- C5 (amended): with profit_threshold_sol = 0 a lamport update sets the
profit event (and the WS stop event, both together) exactly when the vault
balance in SOL covers the initial SOL plus LAUNCH_COST_SOL, i.e. when the
delta is at least the launch cost, not on the first non-zero delta. -/
theorem C5_profit_zero (init_sol : ℚ) (lamports : ℕ) :
    on_value 0 init_sol lamports =
      (decide (init_sol + LAUNCH_COST_SOL ≤ lamports_to_sol lamports),
       decide (init_sol + LAUNCH_COST_SOL ≤ lamports_to_sol lamports)) := by
  have hiff : ((0 : ℚ) ≤ lamports_to_sol lamports - init_sol - LAUNCH_COST_SOL) ↔
      (init_sol + LAUNCH_COST_SOL ≤ lamports_to_sol lamports) := by
    rw [sub_sub, sub_nonneg]
  rw [on_value]
  by_cases hc : init_sol + LAUNCH_COST_SOL ≤ lamports_to_sol lamports
  · rw [if_pos (hiff.mpr hc)]
    simp [hc]
  · rw [if_neg (fun hx => hc (hiff.mp hx))]
    simp [hc]

/-! ## Claim C6: expected LP amount -/

/-- C6: the expected LP amount stored in the derived pool descriptor equals
isqrt(token_amount_after_fee * sol_amount_lamports) - 100 with
token_amount_after_fee = floor(token_amount * (100 - 10) / 100), computed in
exact integer arithmetic, for every choice of cycle sizes. -/
theorem C6_lp_amount (created wsol : List ℕ) (creator : Addr)
    (token_amount lamports_amount : ℕ) :
    (prepare_liquidity_pool created wsol creator token_amount lamports_amount).lp_amount =
      spec_lp_amount_expected token_amount lamports_amount := by
  simp [prepare_liquidity_pool, spec_lp_amount_expected, calculate_lp_tokens,
    get_token_amount_after_fee, TRANSFER_FEE_PERCENT, TRANSFER_FEE_BPS]

/-! ## Claim C8: chain-hop transfer plan -/

/-- C8: distribute_via_chain creates 3 persisted temp wallets per destination
and issues 4 transfers along fund=0 → tmp1=1 → tmp2=2 → tmp3=3 →
destination=4, where hop i carries base_amount + (3 - i) * fee_lamports, so
the final hop delivers exactly base_amount to the destination. -/
theorem C8_chain_hops (base_amount fee_lamports : ℕ) :
    chain_tmp_wallet_count = 3 ∧
    (chain_transfers base_amount fee_lamports).length = 4 ∧
    chain_transfers base_amount fee_lamports =
      [((0, 1), base_amount + 3 * fee_lamports),
       ((1, 2), base_amount + 2 * fee_lamports),
       ((2, 3), base_amount + 1 * fee_lamports),
       ((3, 4), base_amount)] ∧
    (∀ i, i < 4 →
      ((chain_transfers base_amount fee_lamports).getD i ((0, 0), 0)).2 =
        base_amount + (3 - i) * fee_lamports) := by
  have hlist : chain_transfers base_amount fee_lamports =
      [((0, 1), base_amount + 3 * fee_lamports),
       ((1, 2), base_amount + 2 * fee_lamports),
       ((2, 3), base_amount + 1 * fee_lamports),
       ((3, 4), base_amount)] := by
    simp [chain_transfers, chain_amounts, chain_hops]
    norm_num [List.range_succ]
  refine ⟨rfl, by rw [hlist]; rfl, hlist, ?_⟩
  intro i hi
  rw [hlist]
  match i, hi with
  | 0, _ => norm_num
  | 1, _ => norm_num
  | 2, _ => norm_num
  | 3, _ => norm_num

theorem C8_chain_hops_witness :
    (2 : ℕ) < 4 ∧
    ((chain_transfers 123456 5000).getD 2 ((0, 0), 0)).2 = 123456 + (3 - 2) * 5000 :=
  ⟨by decide, (C8_chain_hops 123456 5000).2.2.2 2 (by decide)⟩

/-! ## Claim C10: confirm_transaction retry semantics -/

/-- C10: confirm_transaction with max_retries = 0 returns True at once,
issuing zero signature-status queries; with max_retries > 0 and every poll
unconfirmed it issues exactly max_retries queries and then raises (a bare
raise with no active exception, hence RuntimeError) instead of returning
False. -/
theorem C10_confirm_retries (max_retries : ℕ) (poll : ℕ → Option (Option ℕ))
    (hpos : 0 < max_retries) (hall : ∀ a, status_confirmed (poll a) = false) :
    confirm_transaction 0 poll = (.ok true, 0) ∧
    confirm_transaction max_retries poll =
      (.error "RuntimeError: No active exception to re-raise", max_retries) := by
  refine ⟨rfl, ?_⟩
  rw [confirm_transaction, if_neg (by omega), confirm_loop_exhaust poll hall]
  exact congrArg _ (by omega)

theorem C10_confirm_retries_witness :
    (0 : ℕ) < 2 ∧
    (∀ a : ℕ, status_confirmed ((fun _ => none) a) = false) ∧
    confirm_transaction 0 (fun _ => none) = (.ok true, 0) ∧
    confirm_transaction 2 (fun _ => none) =
      (.error "RuntimeError: No active exception to re-raise", 2) :=
  ⟨by decide, fun _ => rfl,
   (C10_confirm_retries 2 (fun _ => none) (by decide) (fun _ => rfl)).1,
   (C10_confirm_retries 2 (fun _ => none) (by decide) (fun _ => rfl)).2⟩

end BundleBot

namespace BundleBot

/-! ## Claim C7: canonical token ordering in the pool descriptor -/

/-- C7: for a freshly generated mint (whose 32 bytes differ from the wrapped
SOL mint), the derived pool descriptor puts the byte-lexicographically
smaller mint as token0, assigns the token amount to the side holding the new
mint and the lamports amount to the side holding wrapped SOL, and liq_vault
is the pool vault derived from the wrapped SOL mint. -/
theorem C7_pool_descriptor (created wsol : List ℕ) (creator : Addr)
    (token_amount lamports_amount : ℕ)
    (hlen : created.length = wsol.length) (hne : created ≠ wsol) :
    bytesLt
      (mintBytes (prepare_liquidity_pool created wsol creator token_amount
        lamports_amount).token_mint0)
      (mintBytes (prepare_liquidity_pool created wsol creator token_amount
        lamports_amount).token_mint1) = true ∧
    (((prepare_liquidity_pool created wsol creator token_amount
        lamports_amount).token_mint0 = .key created ∧
      (prepare_liquidity_pool created wsol creator token_amount
        lamports_amount).token_mint0_amount = token_amount ∧
      (prepare_liquidity_pool created wsol creator token_amount
        lamports_amount).token_mint1 = .key wsol ∧
      (prepare_liquidity_pool created wsol creator token_amount
        lamports_amount).token_mint1_amount = lamports_amount) ∨
     ((prepare_liquidity_pool created wsol creator token_amount
        lamports_amount).token_mint0 = .key wsol ∧
      (prepare_liquidity_pool created wsol creator token_amount
        lamports_amount).token_mint0_amount = lamports_amount ∧
      (prepare_liquidity_pool created wsol creator token_amount
        lamports_amount).token_mint1 = .key created ∧
      (prepare_liquidity_pool created wsol creator token_amount
        lamports_amount).token_mint1_amount = token_amount)) ∧
    (prepare_liquidity_pool created wsol creator token_amount
      lamports_amount).liq_vault =
      get_pool_vault_address
        (prepare_liquidity_pool created wsol creator token_amount
          lamports_amount).pool_state (.key wsol) RAYDIUM_CP_PROGRAM_ID := by
  by_cases hb : bytesLt created wsol = true
  · refine ⟨?_, Or.inl ⟨?_, ?_, ?_, ?_⟩, ?_⟩ <;>
      simp [prepare_liquidity_pool, mintBytes, get_pool_vault_address, hb]
  · have hb2 : bytesLt created wsol = false := by
      revert hb
      cases bytesLt created wsol <;> simp
    have hlt : bytesLt wsol created = true := bytesLt_total created wsol hlen hne hb2
    refine ⟨?_, Or.inr ⟨?_, ?_, ?_, ?_⟩, ?_⟩ <;>
      simp [prepare_liquidity_pool, mintBytes, get_pool_vault_address, hb2, hlt]

theorem C7_pool_descriptor_witness :
    ([1] : List ℕ).length = ([2] : List ℕ).length ∧
    ([1] : List ℕ) ≠ [2] ∧
    bytesLt
      (mintBytes (prepare_liquidity_pool [1] [2] (Addr.named "dev") 5 6).token_mint0)
      (mintBytes (prepare_liquidity_pool [1] [2] (Addr.named "dev") 5 6).token_mint1)
      = true :=
  ⟨rfl, by decide, (C7_pool_descriptor [1] [2] (Addr.named "dev") 5 6 rfl (by decide)).1⟩

end BundleBot

namespace BundleBot

theorem gnLoopF_succ (fb mf t fuel g hop : ℕ) :
    gnLoopF fb mf t (fuel + 1) g hop =
      if 0 < g ∧ hop < 100 then
        if hopNet fb mf g ≤ t ∨ hopNet fb mf g = 0 then ([], hop + 1)
        else (g :: (gnLoopF fb mf t fuel (hopNet fb mf g) (hop + 1)).1,
              (gnLoopF fb mf t fuel (hopNet fb mf g) (hop + 1)).2)
      else ([], hop) := rfl

theorem gnLoopF_mem (fb mf t : ℕ) :
    ∀ fuel g hop x, x ∈ (gnLoopF fb mf t fuel g hop).1 → t < hopNet fb mf x := by
  intro fuel
  induction fuel with
  | zero => intro g hop x hx; simp [gnLoopF] at hx
  | succ n ih =>
    intro g hop x hx
    rw [gnLoopF_succ] at hx
    by_cases hc : 0 < g ∧ hop < 100
    · rw [if_pos hc] at hx
      by_cases hbr : hopNet fb mf g ≤ t ∨ hopNet fb mf g = 0
      · rw [if_pos hbr] at hx; simp at hx
      · rw [if_neg hbr] at hx
        rcases List.mem_cons.mp hx with h1 | h2
        · subst h1; omega
        · exact ih _ _ x h2
    · rw [if_neg hc] at hx; simp at hx

theorem gnLoopF_len (fb mf t : ℕ) :
    ∀ fuel g hop, (gnLoopF fb mf t fuel g hop).1.length ≤ fuel := by
  intro fuel
  induction fuel with
  | zero => intro g hop; simp [gnLoopF]
  | succ n ih =>
    intro g hop
    rw [gnLoopF_succ]
    by_cases hc : 0 < g ∧ hop < 100
    · rw [if_pos hc]
      by_cases hbr : hopNet fb mf g ≤ t ∨ hopNet fb mf g = 0
      · rw [if_pos hbr]; simp
      · rw [if_neg hbr]
        simpa using ih (hopNet fb mf g) (hop + 1)
    · rw [if_neg hc]; simp

theorem gnLoopF_chain (fb mf t : ℕ) :
    ∀ fuel g hop,
      ((gnLoopF fb mf t fuel g hop).1 = [] ∨ (gnLoopF fb mf t fuel g hop).1.getD 0 0 = g) ∧
      (∀ i, i + 1 < (gnLoopF fb mf t fuel g hop).1.length →
        (gnLoopF fb mf t fuel g hop).1.getD (i + 1) 0 =
          hopNet fb mf ((gnLoopF fb mf t fuel g hop).1.getD i 0)) := by
  intro fuel
  induction fuel with
  | zero =>
    intro g hop
    exact ⟨Or.inl (by simp [gnLoopF]), fun i hi => absurd hi (by simp [gnLoopF])⟩
  | succ n ih =>
    intro g hop
    rw [gnLoopF_succ]
    by_cases hc : 0 < g ∧ hop < 100
    · rw [if_pos hc]
      by_cases hbr : hopNet fb mf g ≤ t ∨ hopNet fb mf g = 0
      · rw [if_pos hbr]
        exact ⟨Or.inl rfl, fun i hi => absurd hi (by simp)⟩
      · rw [if_neg hbr]
        obtain ⟨ih1, ih2⟩ := ih (hopNet fb mf g) (hop + 1)
        constructor
        · right; rfl
        · intro i hi
          simp only [List.length_cons] at hi
          cases i with
          | zero =>
            rcases ih1 with hnil | hhd
            · rw [hnil] at hi; simp at hi
            · simpa using hhd
          | succ j =>
            have hj : j + 1 < (gnLoopF fb mf t n (hopNet fb mf g) (hop + 1)).1.length := by
              simpa using hi
            simpa using ih2 j hj
    · rw [if_neg hc]
      exact ⟨Or.inl rfl, fun i hi => absurd hi (by simp)⟩

theorem gnLoopF_stuck (fb mf t : ℕ) :
    ∀ fuel g hop, 100 ≤ fuel + hop → 0 < g → t < g → hopFee fb mf g = 0 →
      100 ≤ (gnLoopF fb mf t fuel g hop).2 := by
  intro fuel
  induction fuel with
  | zero =>
    intro g hop hsum _ _ _
    show 100 ≤ hop
    omega
  | succ n ih =>
    intro g hop hsum hg ht hf
    have hnet : hopNet fb mf g = g := by simp [hopNet, hf]
    rw [gnLoopF_succ]
    by_cases hc : 0 < g ∧ hop < 100
    · rw [if_pos hc]
      rw [if_neg (by rw [hnet]; omega)]
      show 100 ≤ (gnLoopF fb mf t n (hopNet fb mf g) (hop + 1)).2
      rw [hnet]
      exact ih g (hop + 1) (by omega) hg ht hf
    · rw [if_neg hc]
      show 100 ≤ hop
      omega

theorem gnLoopF_fee_pos (fb mf t : ℕ) :
    ∀ fuel g hop, 100 ≤ fuel + hop → (gnLoopF fb mf t fuel g hop).2 ≤ 99 →
      ∀ x ∈ (gnLoopF fb mf t fuel g hop).1, 0 < hopFee fb mf x := by
  intro fuel
  induction fuel with
  | zero => intro g hop _ _ x hx; simp [gnLoopF] at hx
  | succ n ih =>
    intro g hop hsum hfin x hx
    rw [gnLoopF_succ] at hfin hx
    by_cases hc : 0 < g ∧ hop < 100
    · rw [if_pos hc] at hfin hx
      by_cases hbr : hopNet fb mf g ≤ t ∨ hopNet fb mf g = 0
      · rw [if_pos hbr] at hx; simp at hx
      · rw [if_neg hbr] at hfin hx
        have hfin2 : (gnLoopF fb mf t n (hopNet fb mf g) (hop + 1)).2 ≤ 99 := hfin
        rcases List.mem_cons.mp hx with h1 | h2
        · subst h1
          by_contra hzero
          have hf0 : hopFee fb mf x = 0 := by omega
          have hnet : hopNet fb mf x = x := by simp [hopNet, hf0]
          have := gnLoopF_stuck fb mf t n (hopNet fb mf x) (hop + 1)
            (by omega) (by rw [hnet]; omega) (by rw [hnet]; omega) (by rw [hnet]; exact hf0)
          omega
        · exact ih (hopNet fb mf g) (hop + 1) (by omega) hfin2 x h2
    · rw [if_neg hc] at hx; simp at hx

/-- C1 (amended): whenever the planner returns a list without raising, for
target_net > 0, fee_bps in (0, 10000], max_gross > 0 and any max_fee (0
meaning unbounded), adjacent elements satisfy
gross(i+1) = gross(i) - fee(gross(i)) with the capped fee of the source,
successive net values are strictly decreasing, the length is at most 100,
and every element, the last included, has net strictly ABOVE target_net:
the planner stops before the hop whose net would drop to target_net or
below (the caller burns the overshoot down to the target), so the spec
examples do not hold as stated. -/
theorem C1_plan_hops (target_net fee_bps max_gross : ℤ) (max_fee : ℕ) (l : List ℕ)
    (ht : 0 < target_net) (hb0 : 0 < fee_bps) (hb1 : fee_bps ≤ 10000) (hg : 0 < max_gross)
    (hok : gross_net_for_target_net target_net fee_bps max_gross max_fee = .ok l) :
    (∀ i, i + 1 < l.length →
      l.getD (i + 1) 0 = l.getD i 0 - hopFee fee_bps.toNat max_fee (l.getD i 0)) ∧
    (∀ i, i + 1 < l.length →
      hopNet fee_bps.toNat max_fee (l.getD (i + 1) 0) <
        hopNet fee_bps.toNat max_fee (l.getD i 0)) ∧
    l.length ≤ 100 ∧
    (∀ x ∈ l, target_net.toNat < hopNet fee_bps.toNat max_fee x) := by
  have h1 : ¬ target_net ≤ 0 := by omega
  have h2 : ¬ max_gross ≤ 0 := by omega
  have h3 : ¬ (fee_bps < 0 ∨ fee_bps > 100000) := by omega
  have h4 : ¬ fee_bps = 0 := by omega
  rw [gross_net_for_target_net, if_neg h1, if_neg h2, if_neg h3, if_neg h4] at hok
  simp only [ge_iff_le] at hok
  by_cases hfin :
      100 ≤ (gnLoopF fee_bps.toNat max_fee target_net.toNat 100 max_gross.toNat 0).2
  · rw [if_pos hfin] at hok
    exact absurd hok (by simp)
  · rw [if_neg hfin] at hok
    by_cases hcc : continuityCheck fee_bps.toNat
        (gnLoopF fee_bps.toNat max_fee target_net.toNat 100 max_gross.toNat 0).1 = true
    · rw [if_pos hcc] at hok
      have hl : (gnLoopF fee_bps.toNat max_fee target_net.toNat 100 max_gross.toNat 0).1 = l := by
        injection hok
      subst hl
      have hfin99 :
          (gnLoopF fee_bps.toNat max_fee target_net.toNat 100 max_gross.toNat 0).2 ≤ 99 := by
        omega
      obtain ⟨-, hchain⟩ :=
        gnLoopF_chain fee_bps.toNat max_fee target_net.toNat 100 max_gross.toNat 0
      have hmem := gnLoopF_mem fee_bps.toNat max_fee target_net.toNat 100 max_gross.toNat 0
      have hfee := gnLoopF_fee_pos fee_bps.toNat max_fee target_net.toNat 100 max_gross.toNat 0
        (by omega) hfin99
      refine ⟨?_, ?_, ?_, fun x hx => hmem x hx⟩
      · intro i hi
        rw [hchain i hi, hopNet]
      · intro i hi
        set L := (gnLoopF fee_bps.toNat max_fee target_net.toNat 100 max_gross.toNat 0).1
          with hLdef
        have hb : L.getD (i + 1) 0 ∈ L := by
          rw [List.getD_eq_getElem L 0 hi]
          exact List.getElem_mem hi
        have hbfee : 0 < hopFee fee_bps.toNat max_fee (L.getD (i + 1) 0) := hfee _ hb
        have hbnet : target_net.toNat < hopNet fee_bps.toNat max_fee (L.getD (i + 1) 0) :=
          hmem _ hb
        have hbpos : 0 < L.getD (i + 1) 0 := by
          have : hopNet fee_bps.toNat max_fee (L.getD (i + 1) 0) ≤ L.getD (i + 1) 0 := by
            rw [hopNet]; omega
          omega
        rw [hchain i hi]
        calc hopNet fee_bps.toNat max_fee (hopNet fee_bps.toNat max_fee (L.getD i 0))
            = hopNet fee_bps.toNat max_fee (L.getD (i + 1) 0) := by rw [hchain i hi]
          _ < L.getD (i + 1) 0 := by
              rw [hopNet]
              exact Nat.sub_lt hbpos hbfee
          _ = hopNet fee_bps.toNat max_fee (L.getD i 0) := hchain i hi
      · exact le_trans (gnLoopF_len fee_bps.toNat max_fee target_net.toNat 100 max_gross.toNat 0)
          (le_refl 100)
    · rw [if_neg hcc] at hok
      exact absurd hok (by simp)

/-- C1 counterexample: the spec example plan_hops(target_net 900000,
fee_bps 1000, max_gross 1000000, unbounded max_fee) must yield 1000000 as a
one-element plan, but the code breaks out of the loop before appending the
hop whose net 900000 is at or below the target, returning the empty plan. -/
theorem C1_counterexample :
    gross_net_for_target_net 900000 1000 1000000 0 = .ok [] ∧
    ([] : List ℕ) ≠ [1000000] := ⟨rfl, by decide⟩

theorem C1_plan_hops_witness :
    (0 : ℤ) < 500000 ∧ (0 : ℤ) < 1000 ∧ (1000 : ℤ) ≤ 10000 ∧ (0 : ℤ) < 1000000 ∧
    gross_net_for_target_net 500000 1000 1000000 0 =
      .ok [1000000, 900000, 810000, 729000, 656100, 590490] ∧
    (([1000000, 900000, 810000, 729000, 656100, 590490] : List ℕ).length ≤ 100 ∧
     (∀ x ∈ ([1000000, 900000, 810000, 729000, 656100, 590490] : List ℕ),
        (500000 : ℤ).toNat < hopNet (1000 : ℤ).toNat 0 x)) :=
  ⟨by decide, by decide, by decide, by decide, rfl,
   (C1_plan_hops 500000 1000 1000000 0 [1000000, 900000, 810000, 729000, 656100, 590490]
      (by decide) (by decide) (by decide) (by decide) rfl).2.2.1,
   (C1_plan_hops 500000 1000 1000000 0 [1000000, 900000, 810000, 729000, 656100, 590490]
      (by decide) (by decide) (by decide) (by decide) rfl).2.2.2⟩

end BundleBot

namespace BundleBot

theorem toDigitsLE_zero (b : ℕ) : ∀ fuel, toDigitsLE b fuel 0 = [] := by
  intro fuel; cases fuel <;> simp [toDigitsLE]

theorem toDigitsLE_congr (b : ℕ) (hb : 2 ≤ b) :
    ∀ n f1 f2, n ≤ f1 → n ≤ f2 → toDigitsLE b f1 n = toDigitsLE b f2 n := by
  intro n
  induction n using Nat.strong_induction_on with
  | _ n ih =>
    intro f1 f2 h1 h2
    rcases Nat.eq_zero_or_pos n with hn | hn
    · subst hn; rw [toDigitsLE_zero, toDigitsLE_zero]
    · obtain ⟨g1, rfl⟩ : ∃ g1, f1 = g1 + 1 := ⟨f1 - 1, by omega⟩
      obtain ⟨g2, rfl⟩ : ∃ g2, f2 = g2 + 1 := ⟨f2 - 1, by omega⟩
      rw [toDigitsLE, toDigitsLE, if_neg (by omega), if_neg (by omega)]
      have hdiv : n / b < n := Nat.div_lt_self hn (by omega)
      rw [ih (n / b) hdiv g1 (n / b) (by omega) (le_refl _),
          ih (n / b) hdiv g2 (n / b) (by omega) (le_refl _)]

theorem natDigitsLE_pos (b : ℕ) (hb : 2 ≤ b) (n : ℕ) (hn : 0 < n) :
    natDigitsLE b n = n % b :: natDigitsLE b (n / b) := by
  rw [natDigitsLE]
  obtain ⟨m, rfl⟩ : ∃ m, n = m + 1 := ⟨n - 1, by omega⟩
  rw [toDigitsLE, if_neg (by omega)]
  have hdiv : (m + 1) / b < m + 1 := Nat.div_lt_self hn (by omega)
  rw [natDigitsLE, toDigitsLE_congr b hb ((m + 1) / b) m ((m + 1) / b) (by omega) (le_refl _)]

theorem ofDigits_natDigits (b : ℕ) (hb : 2 ≤ b) :
    ∀ n, ofDigitsLE b (natDigitsLE b n) = n := by
  intro n
  induction n using Nat.strong_induction_on with
  | _ n ih =>
    rcases Nat.eq_zero_or_pos n with hn | hn
    · subst hn; rw [natDigitsLE, toDigitsLE_zero]; rfl
    · rw [natDigitsLE_pos b hb n hn, ofDigitsLE,
          ih (n / b) (Nat.div_lt_self hn (by omega))]
      exact Nat.mod_add_div n b

theorem natDigits_lt (b : ℕ) (hb : 2 ≤ b) :
    ∀ n x, x ∈ natDigitsLE b n → x < b := by
  intro n
  induction n using Nat.strong_induction_on with
  | _ n ih =>
    intro x hx
    rcases Nat.eq_zero_or_pos n with hn | hn
    · subst hn; rw [natDigitsLE, toDigitsLE_zero] at hx; simp at hx
    · rw [natDigitsLE_pos b hb n hn] at hx
      rcases List.mem_cons.mp hx with h1 | h2
      · subst h1; exact Nat.mod_lt n (by omega)
      · exact ih (n / b) (Nat.div_lt_self hn (by omega)) x h2

theorem natDigits_getLast (b : ℕ) (hb : 2 ≤ b) :
    ∀ n, n ≠ 0 → ∀ x, (natDigitsLE b n).getLast? = some x → x ≠ 0 := by
  intro n
  induction n using Nat.strong_induction_on with
  | _ n ih =>
    intro hn x hx
    rw [natDigitsLE_pos b hb n (by omega)] at hx
    rcases Nat.eq_zero_or_pos (n / b) with hq | hq
    · rw [hq, natDigitsLE, toDigitsLE_zero] at hx
      have hxn : x = n % b := by simpa using hx.symm
      have hlt : n < b := by
        by_contra hge
        have h1 : 1 ≤ n / b := (Nat.one_le_div_iff (by omega)).mpr (by omega)
        omega
      rw [hxn, Nat.mod_eq_of_lt hlt]
      exact hn
    · have hcons := natDigitsLE_pos b hb (n / b) hq
      rw [hcons, List.getLast?_cons_cons, ← hcons] at hx
      exact ih (n / b) (Nat.div_lt_self (by omega) (by omega)) (by omega) x hx

theorem ofDigits_ne_zero (b : ℕ) (hb : 2 ≤ b) :
    ∀ l : List ℕ, l ≠ [] → (∀ x, l.getLast? = some x → x ≠ 0) →
      ofDigitsLE b l ≠ 0 := by
  intro l
  induction l with
  | nil => intro h _; exact absurd rfl h
  | cons d r ih =>
    intro _ hlast
    cases r with
    | nil =>
      have hd : d ≠ 0 := hlast d (by simp)
      simp [ofDigitsLE]
      omega
    | cons e s =>
      have hr : ofDigitsLE b (e :: s) ≠ 0 := by
        apply ih (by simp)
        intro x hx
        exact hlast x (by rw [List.getLast?_cons_cons]; exact hx)
      rw [ofDigitsLE]
      have hpos : 0 < b * ofDigitsLE b (e :: s) :=
        Nat.mul_pos (by omega) (Nat.pos_of_ne_zero hr)
      omega

theorem natDigits_ofDigits (b : ℕ) (hb : 2 ≤ b) :
    ∀ l : List ℕ, (∀ x ∈ l, x < b) → (∀ x, l.getLast? = some x → x ≠ 0) →
      natDigitsLE b (ofDigitsLE b l) = l := by
  intro l
  induction l with
  | nil => intro _ _; rw [ofDigitsLE, natDigitsLE, toDigitsLE_zero]
  | cons d r ih =>
    intro hlt hlast
    cases r with
    | nil =>
      have hd0 : d ≠ 0 := hlast d (by simp)
      have hdb : d < b := hlt d (by simp)
      rw [ofDigitsLE, ofDigitsLE]
      simp only [Nat.mul_zero, Nat.add_zero]
      rw [natDigitsLE_pos b hb d (by omega), Nat.mod_eq_of_lt hdb, Nat.div_eq_of_lt hdb,
          natDigitsLE, toDigitsLE_zero]
    | cons e s =>
      have hm : ofDigitsLE b (e :: s) ≠ 0 :=
        ofDigits_ne_zero b hb (e :: s) (by simp)
          (fun x hx => hlast x (by rw [List.getLast?_cons_cons]; exact hx))
      rw [ofDigitsLE]
      have hv : 0 < d + b * ofDigitsLE b (e :: s) := by
        have : 0 < b * ofDigitsLE b (e :: s) := Nat.mul_pos (by omega) (Nat.pos_of_ne_zero hm)
        omega
      rw [natDigitsLE_pos b hb _ hv]
      have hd : d < b := hlt d (by simp)
      rw [Nat.add_mul_mod_self_left d b (ofDigitsLE b (e :: s)), Nat.mod_eq_of_lt hd]
      rw [Nat.add_mul_div_left d (ofDigitsLE b (e :: s)) (by omega), Nat.div_eq_of_lt hd,
          Nat.zero_add]
      rw [ih (fun x hx => hlt x (by simp [hx]))
            (fun x hx => hlast x (by rw [List.getLast?_cons_cons]; exact hx))]

theorem ofDigits_append_zero (b : ℕ) :
    ∀ l : List ℕ, ofDigitsLE b (l ++ [0]) = ofDigitsLE b l := by
  intro l
  induction l with
  | nil => simp [ofDigitsLE]
  | cons d r ih => rw [List.cons_append, ofDigitsLE, ofDigitsLE, ih]

theorem lzc_of_head_ne (l : List ℕ) (x : ℕ) (hx : l.head? = some x) (hne : x ≠ 0) :
    lead_zero_count l = 0 := by
  cases l with
  | nil => simp at hx
  | cons y r =>
    have hyx : y = x := by simpa using hx
    subst hyx
    rw [lead_zero_count, if_neg hne]

theorem b58_digits_cons_zero (bs : List ℕ) :
    b58_digits_of_bytes (0 :: bs) = 0 :: b58_digits_of_bytes bs := by
  rw [b58_digits_of_bytes, b58_digits_of_bytes]
  rw [List.reverse_cons, ofDigits_append_zero]
  rw [lead_zero_count, if_pos rfl, List.replicate_succ]
  rfl

theorem bytes_of_digits_cons_zero (ds : List ℕ) :
    bytes_of_b58_digits (0 :: ds) = 0 :: bytes_of_b58_digits ds := by
  rw [bytes_of_b58_digits, bytes_of_b58_digits]
  rw [List.reverse_cons, ofDigits_append_zero]
  rw [lead_zero_count, if_pos rfl, List.replicate_succ]
  rfl

theorem b58_digits_lt (bs : List ℕ) :
    ∀ x ∈ b58_digits_of_bytes bs, x < 58 := by
  intro x hx
  rw [b58_digits_of_bytes] at hx
  rcases List.mem_append.mp hx with h1 | h2
  · have := List.eq_of_mem_replicate h1; omega
  · exact natDigits_lt 58 (by omega) _ x (List.mem_reverse.mp h2)

theorem bytes_digits_roundtrip :
    ∀ bs : List ℕ, (∀ x ∈ bs, x < 256) →
      bytes_of_b58_digits (b58_digits_of_bytes bs) = bs := by
  intro bs
  induction bs with
  | nil => intro _; rfl
  | cons x r ih =>
    intro hbound
    by_cases hx0 : x = 0
    · subst hx0
      rw [b58_digits_cons_zero, bytes_of_digits_cons_zero,
          ih (fun y hy => hbound y (List.mem_cons_of_mem _ hy))]
    · have hrev : (x :: r).reverse = r.reverse ++ [x] := by simp
      have hlast : ∀ y, ((x :: r).reverse).getLast? = some y → y ≠ 0 := by
        rw [hrev]
        intro y hy
        rw [List.getLast?_concat] at hy
        have hyx : y = x := by simpa using hy.symm
        rw [hyx]; exact hx0
      have hne : ofDigitsLE 256 ((x :: r).reverse) ≠ 0 :=
        ofDigits_ne_zero 256 (by omega) _ (by rw [hrev]; simp) hlast
      have hlzc : lead_zero_count (x :: r) = 0 := by
        rw [lead_zero_count, if_neg hx0]
      rw [b58_digits_of_bytes, hlzc]
      simp only [List.replicate, List.nil_append]
      set n := ofDigitsLE 256 ((x :: r).reverse) with hn
      have hd_last : ∀ y, (natDigitsLE 58 n).getLast? = some y → y ≠ 0 :=
        natDigits_getLast 58 (by omega) n hne
      have hdig := natDigitsLE_pos 58 (by omega) n (Nat.pos_of_ne_zero hne)
      obtain ⟨y, hy⟩ : ∃ y, (natDigitsLE 58 n).getLast? = some y := by
        rw [hdig]
        cases hgl : ((n % 58 :: natDigitsLE 58 (n / 58)).getLast?) with
        | none => exact absurd hgl (by simp [List.getLast?_eq_none_iff])
        | some z => exact ⟨z, rfl⟩
      have hlzc2 : lead_zero_count ((natDigitsLE 58 n).reverse) = 0 :=
        lzc_of_head_ne _ y (by rw [List.head?_reverse]; exact hy) (hd_last y hy)
      rw [bytes_of_b58_digits, hlzc2]
      simp only [List.replicate, List.nil_append, List.reverse_reverse]
      rw [ofDigits_natDigits 58 (by omega) n]
      have hinv : natDigitsLE 256 n = (x :: r).reverse := by
        rw [hn]
        exact natDigits_ofDigits 256 (by omega) _
          (fun z hz => hbound z (List.mem_reverse.mp hz)) hlast
      rw [hinv, List.reverse_reverse]

theorem b58_char_roundtrip : ∀ d, d < 58 → b58_digit_of_char (b58_char d) = d := by decide

theorem map_char_digit (ds : List ℕ) (hlt : ∀ d ∈ ds, d < 58) :
    (ds.map b58_char).map b58_digit_of_char = ds := by
  induction ds with
  | nil => rfl
  | cons d r ih =>
    have hd : d < 58 := hlt d (by simp)
    have hr := ih (fun y hy => hlt y (by simp [hy]))
    simp only [List.map_cons, hr]
    rw [b58_char_roundtrip d hd]

theorem b58_roundtrip (bs : List ℕ) (hb : ∀ x ∈ bs, x < 256) :
    b58decode (b58encode bs) = bs := by
  rw [b58encode, b58decode, map_char_digit _ (b58_digits_lt bs),
      bytes_digits_roundtrip bs hb]

/-- C9: a wallet persisted by _persist_wallet is written to the file named
str(pubkey) followed by .txt whose content is the base58 encoding of the 64
keypair bytes, and decoding that content as from_base58_string does yields
the same keypair, hence the same public key and identical signatures on any
message. -/
theorem C9_wallet_roundtrip (kp : SoldersKeypair)
    (hs : kp.secret.length = 32) (hp : kp.public.length = 32)
    (hbs : ∀ x ∈ kp.secret, x < 256) (hbp : ∀ x ∈ kp.public, x < 256) :
    persist_wallet_filename kp = b58encode kp.public ++ [46, 116, 120, 116] ∧
    keypair_from_base58_string (persist_wallet_content kp) = some kp ∧
    (∀ (sign : List ℕ → List ℕ → List ℕ) (msg : List ℕ),
      Option.map (fun k : SoldersKeypair => (k.public, sign (keypair_to_bytes k) msg))
        (keypair_from_base58_string (persist_wallet_content kp)) =
        some (kp.public, sign (keypair_to_bytes kp) msg)) := by
  have hdecode : b58decode (b58encode (keypair_to_bytes kp)) = keypair_to_bytes kp := by
    apply b58_roundtrip
    intro x hx
    rcases List.mem_append.mp hx with h | h
    · exact hbs x h
    · exact hbp x h
  have hlen : (keypair_to_bytes kp).length = 64 := by
    rw [keypair_to_bytes, List.length_append, hs, hp]
  have hmain : keypair_from_base58_string (persist_wallet_content kp) = some kp := by
    rw [persist_wallet_content, keypair_from_base58_string, hdecode, keypair_from_bytes,
        if_pos hlen]
    rw [keypair_to_bytes]
    have ht : (kp.secret ++ kp.public).take 32 = kp.secret := by
      rw [← hs]; exact List.take_left _ _
    have hd : (kp.secret ++ kp.public).drop 32 = kp.public := by
      rw [← hs]; exact List.drop_left _ _
    rw [ht, hd]
  exact ⟨rfl, hmain, fun sign msg => by rw [hmain]; rfl⟩

theorem C9_wallet_roundtrip_witness :
    ((⟨List.replicate 32 0, List.replicate 31 0 ++ [1]⟩ : SoldersKeypair).secret.length = 32) ∧
    ((⟨List.replicate 32 0, List.replicate 31 0 ++ [1]⟩ : SoldersKeypair).public.length = 32) ∧
    (∀ x ∈ (⟨List.replicate 32 0, List.replicate 31 0 ++ [1]⟩ : SoldersKeypair).secret,
      x < 256) ∧
    (∀ x ∈ (⟨List.replicate 32 0, List.replicate 31 0 ++ [1]⟩ : SoldersKeypair).public,
      x < 256) ∧
    keypair_from_base58_string
        (persist_wallet_content ⟨List.replicate 32 0, List.replicate 31 0 ++ [1]⟩) =
      some ⟨List.replicate 32 0, List.replicate 31 0 ++ [1]⟩ :=
  ⟨by rw [List.length_replicate],
   by rw [List.length_append, List.length_replicate]; rfl,
   fun x hx => by have := List.eq_of_mem_replicate hx; omega,
   fun x hx => by
     rcases List.mem_append.mp hx with h | h
     · have := List.eq_of_mem_replicate h; omega
     · simp at h; omega,
   (C9_wallet_roundtrip ⟨List.replicate 32 0, List.replicate 31 0 ++ [1]⟩
     (by rw [List.length_replicate])
     (by rw [List.length_append, List.length_replicate]; rfl)
     (fun x hx => by have := List.eq_of_mem_replicate hx; omega)
     (fun x hx => by
       rcases List.mem_append.mp hx with h | h
       · have := List.eq_of_mem_replicate h; omega
       · simp at h; omega)).2.1⟩

end BundleBot
